import Mathlib

/-!
Verification of the mars control-plane core: the per-session lifecycle
tracker (`mars/services/lifecycle/supervisor/tracker.py`), the session
execution/fetch orchestrator (`mars/deploy/oscar/session.py`), the HTTP
storage tunnel (`mars/services/storage/api/web.py`) and the executable
tuple shim (`mars/core/entity/executable.py`), shallowly embedded in Lean.

Python dictionaries are embedded as association lists with unique keys
kept by in-place update; `defaultdict(lambda: 0)` lookups are embedded by
a lookup defaulting to `0`.  Python methods that mutate `self` and may
raise are embedded as functions returning the post-state (mutated up to
the raise point, exactly as the interpreter leaves the object) together
with an `Except` value for the raised exception.
-/

namespace Mars

/-- Errors raised by `LifecycleTrackerActor` methods: `TileableNotTracked`
from incref/decref of an unregistered tileable key, and the `assert
ref_count >= 0` failure in `_get_remove_chunk_keys`. -/
inductive TrackerErr where
  | tileableNotTracked (key : String)
  | assertionError
deriving DecidableEq, Repr

/-- Association-list lookup, embedding `dict.__getitem__` / `in`. -/
def lookupA {α : Type} : List (String × α) → String → Option α
  | [], _ => none
  | (k', v) :: rest, k => if k' = k then some v else lookupA rest k

/-- Lookup in a `defaultdict(lambda: 0)`: missing keys read as `0`. -/
def lookup0 (m : List (String × Int)) (k : String) : Int :=
  (lookupA m k).getD 0

/-- Association-list update, embedding `dict.__setitem__`: replaces the
binding in place when the key is present, appends it otherwise. -/
def setA {α : Type} : List (String × α) → String → α → List (String × α)
  | [], k, v => [(k, v)]
  | (k', v') :: rest, k, v =>
      if k' = k then (k, v) :: rest else (k', v') :: setA rest k v

/-- `m[k] += d` on a `defaultdict(lambda: 0)`. -/
def addA (m : List (String × Int)) (k : String) (d : Int) : List (String × Int) :=
  setA m k (lookup0 m k + d)

/-- The mutable state of one `LifecycleTrackerActor`:
`_tileable_key_to_chunk_keys`, `_tileable_ref_counts` and
`_chunk_ref_counts`. -/
structure TrackerState where
  tileable_key_to_chunk_keys : List (String × List String)
  tileable_ref_counts : List (String × Int)
  chunk_ref_counts : List (String × Int)
deriving DecidableEq, Repr

/-- The state built by `LifecycleTrackerActor.__init__`: all three maps
empty. -/
def initState : TrackerState := ⟨[], [], []⟩

/-- `track(tileable_key, chunk_keys)`: plain dict assignment. -/
def track (st : TrackerState) (tileable_key : String)
    (chunk_keys : List String) : TrackerState :=
  { st with
      tileable_key_to_chunk_keys :=
        setA st.tileable_key_to_chunk_keys tileable_key chunk_keys }

/-- `incref_chunks(chunk_keys)`: `+= 1` on each listed chunk key in
order. -/
def incref_chunks (st : TrackerState) (chunk_keys : List String) : TrackerState :=
  chunk_keys.foldl
    (fun s ck => { s with chunk_ref_counts := addA s.chunk_ref_counts ck 1 }) st

/-- `_get_remove_chunk_keys(chunk_keys)`: decrement each chunk count,
assert it stayed non-negative, and collect the keys that landed at
exactly zero.  On assertion failure the decrements performed so far
(including the offending one) are already written to the state. -/
def get_remove_chunk_keys :
    TrackerState → List String → TrackerState × Except TrackerErr (List String)
  | st, [] => (st, .ok [])
  | st, ck :: rest =>
    let st' := { st with chunk_ref_counts := addA st.chunk_ref_counts ck (-1) }
    let refCount := lookup0 st'.chunk_ref_counts ck
    if refCount < 0 then (st', .error .assertionError)
    else
      match get_remove_chunk_keys st' rest with
      | (st'', .ok ks) => (st'', .ok (if refCount = 0 then ck :: ks else ks))
      | (st'', .error e) => (st'', .error e)

/-- `decref_chunks(chunk_keys)`: runs `_get_remove_chunk_keys` and hands
the keys that reached zero to `_remove_chunks`; the returned list is the
deletion request. -/
def decref_chunks (st : TrackerState) (chunk_keys : List String) :
    TrackerState × Except TrackerErr (List String) :=
  get_remove_chunk_keys st chunk_keys

/-- `incref_tileables(tileable_keys)`: per key, first the membership
check (raising `TileableNotTracked`), then `+= 1` on the tileable count,
then the chunk cascade.  Keys already processed keep their mutations when
a later key raises. -/
def incref_tileables :
    TrackerState → List String → TrackerState × Except TrackerErr Unit
  | st, [] => (st, .ok ())
  | st, tk :: rest =>
    match lookupA st.tileable_key_to_chunk_keys tk with
    | none => (st, .error (.tileableNotTracked tk))
    | some chunk_keys =>
      let st' := { st with tileable_ref_counts := addA st.tileable_ref_counts tk 1 }
      incref_tileables (incref_chunks st' chunk_keys) rest

/-- `decref_tileables(tileable_keys)`: per key, the membership check,
then `-= 1` on the tileable count (unguarded), then the chunk cascade via
`_get_remove_chunk_keys`; the zero-landing chunk keys of the whole batch
are concatenated and handed to `_remove_chunks`. -/
def decref_tileables :
    TrackerState → List String → TrackerState × Except TrackerErr (List String)
  | st, [] => (st, .ok [])
  | st, tk :: rest =>
    match lookupA st.tileable_key_to_chunk_keys tk with
    | none => (st, .error (.tileableNotTracked tk))
    | some chunk_keys =>
      let st' := { st with tileable_ref_counts := addA st.tileable_ref_counts tk (-1) }
      match get_remove_chunk_keys st' chunk_keys with
      | (st'', .ok ks) =>
        match decref_tileables st'' rest with
        | (stf, .ok ks') => (stf, .ok (ks ++ ks'))
        | (stf, .error e) => (stf, .error e)
      | (st'', .error e) => (st'', .error e)

/-- `get_chunk_ref_counts(chunk_keys)`: defaultdict lookups, missing keys
read `0`. -/
def get_chunk_ref_counts (st : TrackerState) (chunk_keys : List String) : List Int :=
  chunk_keys.map (lookup0 st.chunk_ref_counts)

/-- `get_tileable_ref_counts(tileable_keys)`. -/
def get_tileable_ref_counts (st : TrackerState) (tileable_keys : List String) : List Int :=
  tileable_keys.map (lookup0 st.tileable_ref_counts)

/-- `get_all_chunk_ref_counts()`: only entries with a strictly positive
count. -/
def get_all_chunk_ref_counts (st : TrackerState) : List (String × Int) :=
  st.chunk_ref_counts.filter (fun p => 0 < p.2)

/-- A band as stored in chunk metadata: `(node address, band name)`;
the code reads `band[0]`, the address. -/
abbrev Band := String × String

/-- The metadata directory consumed by `_remove_chunks`:
`get_chunk_meta(key, fields=['bands'], error='ignore')` returns the bands
or, without error, `none` for a missing entry. -/
abbrev MetaEnv := String → Option (List Band)

/-- The externally visible effect of one `_remove_chunks` call: the
per-node storage delete requests `(address, chunk key)` and the metadata
delete requests. -/
structure RemoveEffects where
  storageDeletes : List (String × String)
  metaDeletes : List String
deriving DecidableEq, Repr

/-- `_remove_chunks(to_remove_chunk_keys)`: batch-fetch metadata with
errors ignored, drop the keys whose metadata is missing, group the
survivors into a `key -> addresses` dict, issue one storage delete (with
`error='ignore'`) per `(address, key)` pair, and batch-delete the
survivors' metadata. -/
def remove_chunks (meta : MetaEnv) (to_remove_chunk_keys : List String) :
    RemoveEffects :=
  let surviving := to_remove_chunk_keys.filter (fun k => (meta k).isSome)
  let key_to_addresses : List (String × List String) :=
    surviving.foldl (fun m k => setA m k (((meta k).getD []).map Prod.fst)) []
  { storageDeletes :=
      (key_to_addresses.map (fun p => p.2.map (fun a => (a, p.1)))).flatten
    metaDeletes := surviving }

/-- The chunk keys `__pre_destroy__` collects: those whose recorded ref
count is strictly positive. -/
def pre_destroy_keys (st : TrackerState) : List String :=
  (st.chunk_ref_counts.filter (fun p => 0 < p.2)).map Prod.fst

/-- `__pre_destroy__`: force-remove every chunk still holding a positive
count. -/
def pre_destroy (meta : MetaEnv) (st : TrackerState) : RemoveEffects :=
  remove_chunks meta (pre_destroy_keys st)

deriving instance DecidableEq for Except

/-! Basic lemmas about the association-list embedding of dicts. -/

theorem lookupA_setA_self {α : Type} (m : List (String × α)) (k : String) (v : α) :
    lookupA (setA m k v) k = some v := by
  induction m with
  | nil => simp [setA, lookupA]
  | cons p rest ih =>
    obtain ⟨k', v'⟩ := p
    by_cases h : k' = k
    · simp [setA, h, lookupA]
    · simp [setA, h, lookupA, ih]

theorem lookupA_setA_ne {α : Type} (m : List (String × α)) (k k' : String) (v : α)
    (h : k ≠ k') : lookupA (setA m k v) k' = lookupA m k' := by
  induction m with
  | nil => simp [setA, lookupA, h]
  | cons p rest ih =>
    obtain ⟨k0, v0⟩ := p
    by_cases h0 : k0 = k
    · subst h0; simp [setA, lookupA, h]
    · simp [setA, h0, lookupA, ih]

theorem lookup0_addA_self (m : List (String × Int)) (k : String) (d : Int) :
    lookup0 (addA m k d) k = lookup0 m k + d := by
  simp [addA, lookup0, lookupA_setA_self]

theorem lookup0_addA_ne (m : List (String × Int)) (k k' : String) (d : Int)
    (h : k ≠ k') : lookup0 (addA m k d) k' = lookup0 m k' := by
  simp [addA, lookup0, lookupA_setA_ne _ _ _ _ h]

/-! Frame lemmas: the tracker operations touch only the maps they are
written to touch. -/

theorem incref_chunks_cons (st : TrackerState) (c : String) (cs : List String) :
    incref_chunks st (c :: cs) =
      incref_chunks { st with chunk_ref_counts := addA st.chunk_ref_counts c 1 } cs := rfl

theorem incref_chunks_nil (st : TrackerState) : incref_chunks st [] = st := rfl

theorem incref_chunks_table (cs : List String) (st : TrackerState) :
    (incref_chunks st cs).tileable_key_to_chunk_keys = st.tileable_key_to_chunk_keys := by
  induction cs generalizing st with
  | nil => rfl
  | cons c cs ih => rw [incref_chunks_cons]; exact ih _

theorem incref_chunks_tileable (cs : List String) (st : TrackerState) :
    (incref_chunks st cs).tileable_ref_counts = st.tileable_ref_counts := by
  induction cs generalizing st with
  | nil => rfl
  | cons c cs ih => rw [incref_chunks_cons]; exact ih _

theorem get_remove_chunk_keys_table (cs : List String) (st : TrackerState) :
    (get_remove_chunk_keys st cs).1.tileable_key_to_chunk_keys =
      st.tileable_key_to_chunk_keys := by
  induction cs generalizing st with
  | nil => rfl
  | cons c rest ih =>
    simp only [get_remove_chunk_keys]
    split
    · rfl
    · rcases hrec : get_remove_chunk_keys
        { st with chunk_ref_counts := addA st.chunk_ref_counts c (-1) } rest with ⟨st2, r⟩
      have htab := ih { st with chunk_ref_counts := addA st.chunk_ref_counts c (-1) }
      rw [hrec] at htab
      cases r <;> simpa using htab

theorem get_remove_chunk_keys_tileable (cs : List String) (st : TrackerState) :
    (get_remove_chunk_keys st cs).1.tileable_ref_counts = st.tileable_ref_counts := by
  induction cs generalizing st with
  | nil => rfl
  | cons c rest ih =>
    simp only [get_remove_chunk_keys]
    split
    · rfl
    · rcases hrec : get_remove_chunk_keys
        { st with chunk_ref_counts := addA st.chunk_ref_counts c (-1) } rest with ⟨st2, r⟩
      have htl := ih { st with chunk_ref_counts := addA st.chunk_ref_counts c (-1) }
      rw [hrec] at htl
      cases r <;> simpa using htl

theorem get_remove_chunk_keys_no_notTracked (cs : List String) (st : TrackerState)
    (k : String) :
    (get_remove_chunk_keys st cs).2 ≠ .error (.tileableNotTracked k) := by
  induction cs generalizing st with
  | nil => simp [get_remove_chunk_keys]
  | cons c rest ih =>
    simp only [get_remove_chunk_keys]
    split
    · simp
    · rcases hrec : get_remove_chunk_keys
        { st with chunk_ref_counts := addA st.chunk_ref_counts c (-1) } rest with ⟨st2, r⟩
      have hne := ih { st with chunk_ref_counts := addA st.chunk_ref_counts c (-1) }
      rw [hrec] at hne
      cases r with
      | ok ks => simp [hrec]
      | error e => simpa [hrec] using hne

/-! Lemmas about batch validation in `incref_tileables` /
`decref_tileables`. -/

theorem incref_tileables_ok_of_tracked (keys : List String) (st : TrackerState)
    (h : ∀ x ∈ keys, (lookupA st.tileable_key_to_chunk_keys x).isSome) :
    (incref_tileables st keys).2 = .ok () := by
  induction keys generalizing st with
  | nil => rfl
  | cons k rest ih =>
    have hk := h k (List.mem_cons_self _ _)
    rcases hlk : lookupA st.tileable_key_to_chunk_keys k with _ | cs
    · rw [hlk] at hk; simp at hk
    · simp only [incref_tileables, hlk]
      apply ih
      intro x hx
      rw [incref_chunks_table]
      exact h x (List.mem_cons_of_mem _ hx)

theorem incref_tileables_error_of_untracked (keys : List String) (st : TrackerState)
    (h : ∃ x ∈ keys, lookupA st.tileable_key_to_chunk_keys x = none) :
    ∃ x, (incref_tileables st keys).2 = .error (.tileableNotTracked x) := by
  induction keys generalizing st with
  | nil => simp at h
  | cons k rest ih =>
    rcases hlk : lookupA st.tileable_key_to_chunk_keys k with _ | cs
    · exact ⟨k, by simp [incref_tileables, hlk]⟩
    · simp only [incref_tileables, hlk]
      apply ih
      obtain ⟨x, hx, hnone⟩ := h
      rcases List.mem_cons.mp hx with heq | hmem
      · subst heq; rw [hlk] at hnone; exact absurd hnone (by simp)
      · exact ⟨x, hmem, by rw [incref_chunks_table]; exact hnone⟩

theorem decref_tileables_no_notTracked (keys : List String) (st : TrackerState)
    (h : ∀ x ∈ keys, (lookupA st.tileable_key_to_chunk_keys x).isSome) (x' : String) :
    (decref_tileables st keys).2 ≠ .error (.tileableNotTracked x') := by
  induction keys generalizing st with
  | nil => simp [decref_tileables]
  | cons k rest ih =>
    have hk := h k (List.mem_cons_self _ _)
    rcases hlk : lookupA st.tileable_key_to_chunk_keys k with _ | cs
    · rw [hlk] at hk; simp at hk
    · simp only [decref_tileables, hlk]
      rcases hrec : get_remove_chunk_keys
          { st with tileable_ref_counts := addA st.tileable_ref_counts k (-1) } cs
        with ⟨st2, r⟩
      cases r with
      | error e =>
        have hg := get_remove_chunk_keys_no_notTracked cs
          { st with tileable_ref_counts := addA st.tileable_ref_counts k (-1) } x'
        rw [hrec] at hg
        simpa using hg
      | ok ks =>
        have htracked : ∀ x ∈ rest, (lookupA st2.tileable_key_to_chunk_keys x).isSome := by
          intro x hx
          have htab := get_remove_chunk_keys_table cs
            { st with tileable_ref_counts := addA st.tileable_ref_counts k (-1) }
          rw [hrec] at htab
          rw [htab]
          exact h x (List.mem_cons_of_mem _ hx)
        have hne := ih st2 htracked
        rcases hrest : decref_tileables st2 rest with ⟨st3, r3⟩
        rw [hrest] at hne
        cases r3 with
        | ok ks' => simp [hrest]
        | error e => simpa [hrest] using hne

/-! Concrete scenario states shared by the claim theorems. -/

/-- A metadata directory holding bands for `c1` and `c2` on node
`addr0`. -/
def c2Meta : MetaEnv :=
  fun k => if k = "c1" ∨ k = "c2" then some [("addr0", "numa-0")] else none

/-- Fresh tracker after `track('t', ['c1','c2'])`. -/
def c2St0 : TrackerState := track initState "t" ["c1", "c2"]

/-- ... after one `incref_tileables(['t'])`. -/
def c2St1 : TrackerState := (incref_tileables c2St0 ["t"]).1

/-- ... after a second `incref_tileables(['t'])`. -/
def c2St2 : TrackerState := (incref_tileables c2St1 ["t"]).1

/-- First `decref_tileables(['t'])` from `c2St2`. -/
def c2Dec1 : TrackerState × Except TrackerErr (List String) :=
  decref_tileables c2St2 ["t"]

/-- Second `decref_tileables(['t'])`. -/
def c2Dec2 : TrackerState × Except TrackerErr (List String) :=
  decref_tileables c2Dec1.1 ["t"]

/-- Fresh tracker after `track('t', ['c'])`, used by the C1 theorems. -/
def c1Pre : TrackerState := track initState "t" ["c"]

/-- C2: after `track('t', ['c1','c2'])` and two `incref_tileables(['t'])`
the chunk ref counts read `[2,2]`; the first `decref_tileables(['t'])`
leaves `[1,1]`, returns an empty removal list and so issues no storage or
metadata deletion; the second leaves `[0,0]`, returns removal list
`['c1','c2']`, and the resulting deletion batch deletes storage and
metadata for exactly `c1` and `c2`. -/
theorem C2_refcount_deletion_scenario :
    get_chunk_ref_counts c2St2 ["c1", "c2"] = [2, 2] ∧
    get_chunk_ref_counts c2Dec1.1 ["c1", "c2"] = [1, 1] ∧
    c2Dec1.2 = .ok [] ∧
    remove_chunks c2Meta [] = ⟨[], []⟩ ∧
    get_chunk_ref_counts c2Dec2.1 ["c1", "c2"] = [0, 0] ∧
    c2Dec2.2 = .ok ["c1", "c2"] ∧
    remove_chunks c2Meta ["c1", "c2"] =
      ⟨[("addr0", "c1"), ("addr0", "c2")], ["c1", "c2"]⟩ := by
  decide

/-- C1 counterexample: on the batch `['t','u']` with `t` tracked and `u`
not, `incref_tileables` raises `TileableNotTracked` but has already
incremented `t`'s tileable count and `c`'s chunk count — the keys are not
all validated before the first mutation. -/
theorem C1_partial_mutation_counterexample :
    (incref_tileables c1Pre ["t", "u"]).2 = .error (.tileableNotTracked "u") ∧
    get_chunk_ref_counts (incref_tileables c1Pre ["t", "u"]).1 ["c"] = [1] ∧
    get_tileable_ref_counts (incref_tileables c1Pre ["t", "u"]).1 ["t"] = [1] ∧
    get_chunk_ref_counts c1Pre ["c"] = [0] ∧
    get_tileable_ref_counts c1Pre ["t"] = [0] := by
  decide

/-- C1 (amended): validation is interleaved with mutation, one key at a
time.  If every key of the batch is tracked, `incref_tileables` succeeds
and `decref_tileables` never raises `TileableNotTracked`; if some key is
untracked, `incref_tileables` raises `TileableNotTracked`; and when the
batch's FIRST key is untracked (in particular for the singleton
`['unknown']`) the call raises and leaves the whole state unchanged.
Counts mutated for keys preceding the first untracked key are kept. -/
theorem C1_batch_validation (st : TrackerState) (keys : List String)
    (k : String) (rest : List String) :
    ((∀ x ∈ keys, (lookupA st.tileable_key_to_chunk_keys x).isSome) →
      (incref_tileables st keys).2 = .ok ()) ∧
    ((∀ x ∈ keys, (lookupA st.tileable_key_to_chunk_keys x).isSome) →
      ∀ x, (decref_tileables st keys).2 ≠ .error (.tileableNotTracked x)) ∧
    ((∃ x ∈ keys, lookupA st.tileable_key_to_chunk_keys x = none) →
      ∃ x, (incref_tileables st keys).2 = .error (.tileableNotTracked x)) ∧
    (lookupA st.tileable_key_to_chunk_keys k = none →
      incref_tileables st (k :: rest) = (st, .error (.tileableNotTracked k)) ∧
      decref_tileables st (k :: rest) = (st, .error (.tileableNotTracked k))) := by
  refine ⟨incref_tileables_ok_of_tracked keys st,
          fun h x => decref_tileables_no_notTracked keys st h x,
          incref_tileables_error_of_untracked keys st,
          fun h => ⟨?_, ?_⟩⟩
  · simp [incref_tileables, h]
  · simp [decref_tileables, h]

/-- Closed instance of `C1_batch_validation` at concrete states. -/
theorem C1_batch_validation_witness :
    (incref_tileables c1Pre ["t"]).2 = .ok () ∧
    (decref_tileables c1Pre ["t"]).2 ≠ .error (.tileableNotTracked "t") ∧
    incref_tileables c1Pre ["u"] = (c1Pre, .error (.tileableNotTracked "u")) ∧
    decref_tileables c1Pre ["u"] = (c1Pre, .error (.tileableNotTracked "u")) ∧
    ∃ x, (incref_tileables c1Pre ["u"]).2 = .error (.tileableNotTracked x) := by
  have h1 := C1_batch_validation c1Pre ["t"] "u" []
  have h2 := C1_batch_validation c1Pre ["u"] "u" []
  have htr : ∀ x ∈ ["t"], (lookupA c1Pre.tileable_key_to_chunk_keys x).isSome := by decide
  have hun : lookupA c1Pre.tileable_key_to_chunk_keys "u" = none := by decide
  exact ⟨h1.1 htr, h1.2.1 htr "t", (h2.2.2.2 hun).1, (h2.2.2.2 hun).2,
         h2.2.2.1 ⟨"u", by decide, hun⟩⟩

/-! Message sequences against one tracker, for the refcount invariant. -/

/-- One message to the tracker actor. -/
inductive LifecycleOp where
  | trackOp (t : String) (cs : List String)
  | increfTileablesOp (keys : List String)
  | decrefTileablesOp (keys : List String)
  | increfChunksOp (keys : List String)
  | decrefChunksOp (keys : List String)
deriving DecidableEq, Repr

/-- Execute one message: the post-state and the call's outcome. -/
def stepOp (st : TrackerState) : LifecycleOp → TrackerState × Except TrackerErr Unit
  | .trackOp t cs => (track st t cs, .ok ())
  | .increfTileablesOp keys => incref_tileables st keys
  | .decrefTileablesOp keys =>
      ((decref_tileables st keys).1, (decref_tileables st keys).2.map fun _ => ())
  | .increfChunksOp keys => (incref_chunks st keys, .ok ())
  | .decrefChunksOp keys =>
      ((decref_chunks st keys).1, (decref_chunks st keys).2.map fun _ => ())

/-- Every decrement in the list finds a strictly positive current count:
the operational form of "for this chunk key, decrements never exceed the
prior increments" at every intermediate point. -/
def chunksNoUnderflow (m : List (String × Int)) : List String → Bool
  | [] => true
  | c :: rest => (decide (1 ≤ lookup0 m c)) && chunksNoUnderflow (addA m c (-1)) rest

/-- Validity of one `decref_tileables` batch: every key is tracked, its
tileable count is strictly positive when decremented, and the cascaded
chunk decrements never exceed the prior chunk increments. -/
def decrefTileablesValid (st : TrackerState) : List String → Bool
  | [] => true
  | k :: rest =>
    match lookupA st.tileable_key_to_chunk_keys k with
    | none => false
    | some cs =>
      decide (1 ≤ lookup0 st.tileable_ref_counts k) &&
      chunksNoUnderflow st.chunk_ref_counts cs &&
      decrefTileablesValid
        (get_remove_chunk_keys
          { st with tileable_ref_counts := addA st.tileable_ref_counts k (-1) } cs).1
        rest

/-- A message is valid when incref/decref keys are tracked and no
decrement exceeds the prior increments for its key. -/
def opValid (st : TrackerState) : LifecycleOp → Bool
  | .trackOp _ _ => true
  | .increfTileablesOp keys =>
      keys.all fun k => (lookupA st.tileable_key_to_chunk_keys k).isSome
  | .decrefTileablesOp keys => decrefTileablesValid st keys
  | .increfChunksOp _ => true
  | .decrefChunksOp keys => chunksNoUnderflow st.chunk_ref_counts keys

/-- A sequence is valid when each message is valid in the state the
previous messages produced. -/
def seqValid (st : TrackerState) : List LifecycleOp → Bool
  | [] => true
  | op :: rest => opValid st op && seqValid (stepOp st op).1 rest

/-- The states the tracker passes through, the initial one included. -/
def runStates (st : TrackerState) : List LifecycleOp → List TrackerState
  | [] => [st]
  | op :: rest => st :: runStates (stepOp st op).1 rest

/-- No message of the sequence raises. -/
def seqNoError (st : TrackerState) : List LifecycleOp → Bool
  | [] => true
  | op :: rest =>
    (match (stepOp st op).2 with | .ok _ => true | .error _ => false) &&
    seqNoError (stepOp st op).1 rest

/-- Both refcount maps read non-negative at every key. -/
def countsNonneg (st : TrackerState) : Prop :=
  (∀ k, 0 ≤ lookup0 st.tileable_ref_counts k) ∧
  (∀ k, 0 ≤ lookup0 st.chunk_ref_counts k)

theorem incref_chunks_chunk_nonneg (cs : List String) (st : TrackerState)
    (h : ∀ k, 0 ≤ lookup0 st.chunk_ref_counts k) :
    ∀ k, 0 ≤ lookup0 (incref_chunks st cs).chunk_ref_counts k := by
  induction cs generalizing st with
  | nil => exact h
  | cons c cs ih =>
    rw [incref_chunks_cons]
    apply ih
    intro k
    by_cases hk : c = k
    · subst hk
      simp only [lookup0_addA_self]
      have := h c
      omega
    · rw [lookup0_addA_ne _ _ _ _ hk]
      exact h k

theorem get_remove_chunk_keys_ok_of_noUnderflow (cs : List String) (st : TrackerState)
    (h : ∀ k, 0 ≤ lookup0 st.chunk_ref_counts k)
    (hnu : chunksNoUnderflow st.chunk_ref_counts cs = true) :
    (∃ ks, (get_remove_chunk_keys st cs).2 = .ok ks) ∧
    (∀ k, 0 ≤ lookup0 (get_remove_chunk_keys st cs).1.chunk_ref_counts k) := by
  induction cs generalizing st with
  | nil => exact ⟨⟨[], rfl⟩, h⟩
  | cons c rest ih =>
    simp only [chunksNoUnderflow, Bool.and_eq_true, decide_eq_true_eq] at hnu
    obtain ⟨h1, h2⟩ := hnu
    have hnew : ∀ k, 0 ≤ lookup0 (addA st.chunk_ref_counts c (-1)) k := by
      intro k
      by_cases hk : c = k
      · subst hk; rw [lookup0_addA_self]; omega
      · rw [lookup0_addA_ne _ _ _ _ hk]; exact h k
    have hnotlt : ¬ lookup0 (addA st.chunk_ref_counts c (-1)) c < 0 := by
      have := hnew c; omega
    have hih := ih { st with chunk_ref_counts := addA st.chunk_ref_counts c (-1) }
      hnew h2
    simp only [get_remove_chunk_keys]
    rw [if_neg hnotlt]
    rcases hrec : get_remove_chunk_keys
        { st with chunk_ref_counts := addA st.chunk_ref_counts c (-1) } rest
      with ⟨st2, r⟩
    rw [hrec] at hih
    cases r with
    | error e => obtain ⟨⟨ks, hks⟩, _⟩ := hih; simp at hks
    | ok ks => exact ⟨⟨_, rfl⟩, hih.2⟩

theorem get_remove_chunk_keys_tileable_nonneg (cs : List String) (st : TrackerState)
    (h : ∀ k, 0 ≤ lookup0 st.tileable_ref_counts k) :
    ∀ k, 0 ≤ lookup0 (get_remove_chunk_keys st cs).1.tileable_ref_counts k := by
  intro k
  rw [get_remove_chunk_keys_tileable]
  exact h k

theorem incref_tileables_nonneg (keys : List String) (st : TrackerState)
    (ht : ∀ k, 0 ≤ lookup0 st.tileable_ref_counts k)
    (hc : ∀ k, 0 ≤ lookup0 st.chunk_ref_counts k) :
    (∀ k, 0 ≤ lookup0 (incref_tileables st keys).1.tileable_ref_counts k) ∧
    (∀ k, 0 ≤ lookup0 (incref_tileables st keys).1.chunk_ref_counts k) := by
  induction keys generalizing st with
  | nil => exact ⟨ht, hc⟩
  | cons k rest ih =>
    rcases hlk : lookupA st.tileable_key_to_chunk_keys k with _ | cs
    · simpa [incref_tileables, hlk] using ⟨ht, hc⟩
    · simp only [incref_tileables, hlk]
      apply ih
      · intro x
        rw [incref_chunks_tileable]
        by_cases hx : k = x
        · subst hx
          simp only [lookup0_addA_self]
          have := ht k
          omega
        · rw [lookup0_addA_ne _ _ _ _ hx]
          exact ht x
      · exact incref_chunks_chunk_nonneg cs _ hc

theorem decref_tileables_ok_of_valid (keys : List String) (st : TrackerState)
    (ht : ∀ k, 0 ≤ lookup0 st.tileable_ref_counts k)
    (hc : ∀ k, 0 ≤ lookup0 st.chunk_ref_counts k)
    (hv : decrefTileablesValid st keys = true) :
    (∃ ks, (decref_tileables st keys).2 = .ok ks) ∧
    (∀ k, 0 ≤ lookup0 (decref_tileables st keys).1.tileable_ref_counts k) ∧
    (∀ k, 0 ≤ lookup0 (decref_tileables st keys).1.chunk_ref_counts k) := by
  induction keys generalizing st with
  | nil => exact ⟨⟨[], rfl⟩, ht, hc⟩
  | cons k rest ih =>
    rcases hlk : lookupA st.tileable_key_to_chunk_keys k with _ | cs
    · rw [decrefTileablesValid, hlk] at hv; simp at hv
    · rw [decrefTileablesValid, hlk] at hv
      simp only [Bool.and_eq_true, decide_eq_true_eq] at hv
      obtain ⟨⟨hpos, hnu⟩, hvrest⟩ := hv
      have ht1 : ∀ x, 0 ≤ lookup0
          (addA st.tileable_ref_counts k (-1)) x := by
        intro x
        by_cases hx : k = x
        · subst hx; rw [lookup0_addA_self]; omega
        · rw [lookup0_addA_ne _ _ _ _ hx]; exact ht x
      have hgr := get_remove_chunk_keys_ok_of_noUnderflow cs
        { st with tileable_ref_counts := addA st.tileable_ref_counts k (-1) } hc hnu
      have hgt := get_remove_chunk_keys_tileable_nonneg cs
        { st with tileable_ref_counts := addA st.tileable_ref_counts k (-1) } ht1
      simp only [decref_tileables, hlk]
      rcases hrec : get_remove_chunk_keys
          { st with tileable_ref_counts := addA st.tileable_ref_counts k (-1) } cs
        with ⟨st2, r⟩
      rw [hrec] at hgr hgt hvrest
      cases r with
      | error e => obtain ⟨⟨ks, hks⟩, _⟩ := hgr; simp at hks
      | ok ks =>
        have hih := ih st2 hgt hgr.2 hvrest
        rcases hrest : decref_tileables st2 rest with ⟨st3, r3⟩
        rw [hrest] at hih
        cases r3 with
        | error e => obtain ⟨⟨ks', hks'⟩, _⟩ := hih; simp at hks'
        | ok ks' =>
          refine ⟨⟨ks ++ ks', ?_⟩, ?_, ?_⟩
          · simp [hrest]
          · simpa [hrest] using hih.2.1
          · simpa [hrest] using hih.2.2

theorem stepOp_preserves (op : LifecycleOp) (st : TrackerState)
    (hn : countsNonneg st) (hv : opValid st op = true) :
    (stepOp st op).2 = .ok () ∧ countsNonneg (stepOp st op).1 := by
  obtain ⟨ht, hc⟩ := hn
  cases op with
  | trackOp t cs => exact ⟨rfl, ht, hc⟩
  | increfTileablesOp keys =>
    have htracked : ∀ x ∈ keys, (lookupA st.tileable_key_to_chunk_keys x).isSome := by
      intro x hx
      exact List.all_eq_true.mp hv x hx
    have hok := incref_tileables_ok_of_tracked keys st htracked
    have hnn := incref_tileables_nonneg keys st ht hc
    exact ⟨hok, hnn.1, hnn.2⟩
  | decrefTileablesOp keys =>
    have hd := decref_tileables_ok_of_valid keys st ht hc hv
    obtain ⟨⟨ks, hks⟩, h1, h2⟩ := hd
    refine ⟨?_, h1, h2⟩
    simp only [stepOp, hks, Except.map]
  | increfChunksOp keys =>
    refine ⟨rfl, ?_, incref_chunks_chunk_nonneg keys st hc⟩
    intro x
    show 0 ≤ lookup0 (incref_chunks st keys).tileable_ref_counts x
    rw [incref_chunks_tileable]
    exact ht x
  | decrefChunksOp keys =>
    have hg := get_remove_chunk_keys_ok_of_noUnderflow keys st hc hv
    obtain ⟨⟨ks, hks⟩, h2⟩ := hg
    refine ⟨?_, get_remove_chunk_keys_tileable_nonneg keys st ht, h2⟩
    simp only [stepOp, decref_chunks, hks, Except.map]

theorem seq_preserves (ops : List LifecycleOp) (st : TrackerState)
    (hn : countsNonneg st) (hv : seqValid st ops = true) :
    seqNoError st ops = true ∧ ∀ s ∈ runStates st ops, countsNonneg s := by
  induction ops generalizing st with
  | nil =>
    refine ⟨rfl, ?_⟩
    intro s hs
    simp only [runStates, List.mem_singleton] at hs
    subst hs; exact hn
  | cons op rest ih =>
    simp only [seqValid, Bool.and_eq_true] at hv
    obtain ⟨hv1, hv2⟩ := hv
    have hstep := stepOp_preserves op st hn hv1
    have hih := ih (stepOp st op).1 hstep.2 hv2
    refine ⟨?_, ?_⟩
    · simp only [seqNoError, Bool.and_eq_true, hstep.1, hih.1]
      simp
    · intro s hs
      simp only [runStates, List.mem_cons] at hs
      rcases hs with heq | hmem
      · subst heq; exact hn
      · exact hih.2 s hmem

/-- C3 counterexample: the code does not guard tileable ref counts.
After `track('t', [])` a `decref_tileables(['t'])` with zero prior
increfs succeeds (no assertion, no exception) and leaves the tileable
count at `-1`: the extra decref is neither signalled nor clamped. -/
theorem C3_silent_negative_counterexample :
    (decref_tileables (track initState "t" []) ["t"]).2 = .ok [] ∧
    get_tileable_ref_counts
      (decref_tileables (track initState "t" []) ["t"]).1 ["t"] = [-1] := by
  decide

/-- C3 (amended): for every valid sequence of track/incref/decref
messages from a fresh tracker (each key's decrements never exceeding its
prior increments, incref/decref keys tracked), no message raises and
every entry of both refcount maps is non-negative after every message; a
chunk decrement that would land below zero trips the `assert` in
`_get_remove_chunk_keys`; but the TILEABLE map is unguarded: decrementing
a tileable with an empty chunk list always succeeds, however low its
count, merely writing `count - 1` back. -/
theorem C3_nonneg_invariant (ops : List LifecycleOp)
    (hv : seqValid initState ops = true) :
    (seqNoError initState ops = true ∧ ∀ s ∈ runStates initState ops, countsNonneg s) ∧
    (∀ st c, lookup0 st.chunk_ref_counts c ≤ 0 →
       (get_remove_chunk_keys st [c]).2 = .error .assertionError) ∧
    (∀ st t, (decref_tileables (track st t []) [t]).2 = .ok [] ∧
       lookup0 (decref_tileables (track st t []) [t]).1.tileable_ref_counts t =
         lookup0 st.tileable_ref_counts t - 1) := by
  refine ⟨seq_preserves ops initState ⟨fun k => le_refl 0, fun k => le_refl 0⟩ hv, ?_, ?_⟩
  · intro st c hle
    have hlt : lookup0 (addA st.chunk_ref_counts c (-1)) c < 0 := by
      rw [lookup0_addA_self]; omega
    simp only [get_remove_chunk_keys]
    rw [if_pos hlt]
  · intro st t
    have hlk : lookupA (track st t []).tileable_key_to_chunk_keys t = some [] := by
      simp [track, lookupA_setA_self]
    constructor
    · simp [decref_tileables, hlk, get_remove_chunk_keys]
    · simp only [decref_tileables, hlk, get_remove_chunk_keys]
      simp only [track, lookup0_addA_self]
      omega

/-- Closed instance of `C3_nonneg_invariant` on a concrete valid
sequence and concrete underflow states. -/
theorem C3_nonneg_invariant_witness :
    (seqNoError initState
        [.trackOp "t" ["c"], .increfTileablesOp ["t"], .decrefTileablesOp ["t"]] = true ∧
      ∀ s ∈ runStates initState
        [.trackOp "t" ["c"], .increfTileablesOp ["t"], .decrefTileablesOp ["t"]],
        countsNonneg s) ∧
    (get_remove_chunk_keys initState ["c"]).2 = .error .assertionError ∧
    (decref_tileables (track initState "t" []) ["t"]).2 = .ok [] := by
  have h := C3_nonneg_invariant
    [.trackOp "t" ["c"], .increfTileablesOp ["t"], .decrefTileablesOp ["t"]] (by decide)
  exact ⟨h.1, h.2.1 initState "c" (by decide), (h.2.2 initState "t").1⟩

/-! Association lists with unique keys: lookup/membership lemmas used by
the deletion-algorithm claims. -/

theorem lookupA_mem {α : Type} (m : List (String × α)) (k : String) (v : α)
    (h : lookupA m k = some v) : (k, v) ∈ m := by
  induction m with
  | nil => simp [lookupA] at h
  | cons p rest ih =>
    obtain ⟨k0, v0⟩ := p
    by_cases h0 : k0 = k
    · subst h0
      simp only [lookupA, if_pos] at h
      injection h with h
      subst h
      exact List.mem_cons_self _ _
    · simp only [lookupA, if_neg h0] at h
      exact List.mem_cons_of_mem _ (ih h)

theorem mem_lookupA {α : Type} (m : List (String × α)) (k : String) (v : α)
    (hnd : (m.map Prod.fst).Nodup) (h : (k, v) ∈ m) : lookupA m k = some v := by
  induction m with
  | nil => simp at h
  | cons p rest ih =>
    obtain ⟨k0, v0⟩ := p
    simp only [List.map_cons, List.nodup_cons] at hnd
    rcases List.mem_cons.mp h with heq | hmem
    · injection heq with h1 h2
      subst h1; subst h2
      simp [lookupA]
    · have hne : k0 ≠ k := by
        intro he
        subst he
        exact hnd.1 (List.mem_map.mpr ⟨(k0, v), hmem, rfl⟩)
      simp [lookupA, hne, ih hnd.2 hmem]

theorem map_fst_setA {α : Type} (m : List (String × α)) (k : String) (v : α) :
    (setA m k v).map Prod.fst =
      if k ∈ m.map Prod.fst then m.map Prod.fst else m.map Prod.fst ++ [k] := by
  induction m with
  | nil => simp [setA]
  | cons p rest ih =>
    obtain ⟨k0, v0⟩ := p
    by_cases h0 : k0 = k
    · subst h0; simp [setA]
    · have h0' : ¬ k = k0 := fun he => h0 he.symm
      simp only [setA, if_neg h0, List.map_cons, ih, List.mem_cons, h0', false_or]
      by_cases hk : k ∈ rest.map Prod.fst <;> simp [hk]

theorem nodup_map_fst_setA {α : Type} (m : List (String × α)) (k : String) (v : α)
    (h : (m.map Prod.fst).Nodup) : ((setA m k v).map Prod.fst).Nodup := by
  rw [map_fst_setA]
  split
  · exact h
  · rename_i hk
    simp [List.nodup_append, h, hk]

theorem lookupA_foldl_setA {α : Type} (f : String → α) (l : List String)
    (m0 : List (String × α)) (k : String) :
    lookupA (l.foldl (fun m x => setA m x (f x)) m0) k =
      if k ∈ l then some (f k) else lookupA m0 k := by
  induction l generalizing m0 with
  | nil => simp
  | cons c l' ih =>
    simp only [List.foldl_cons]
    rw [ih]
    by_cases hmem : k ∈ l'
    · simp [hmem]
    · by_cases hkc : k = c
      · subst hkc; simp [hmem, lookupA_setA_self]
      · simp [hmem, hkc, lookupA_setA_ne _ _ _ _ (Ne.symm hkc)]

theorem nodup_map_fst_foldl_setA {α : Type} (f : String → α) (l : List String)
    (m0 : List (String × α)) (h : (m0.map Prod.fst).Nodup) :
    ((l.foldl (fun m x => setA m x (f x)) m0).map Prod.fst).Nodup := by
  induction l generalizing m0 with
  | nil => exact h
  | cons c l' ih => exact ih _ (nodup_map_fst_setA _ _ _ h)

theorem mem_metaDeletes_remove_chunks (meta : MetaEnv) (keys : List String)
    (k : String) :
    k ∈ (remove_chunks meta keys).metaDeletes ↔ k ∈ keys ∧ (meta k).isSome := by
  simp [remove_chunks, List.mem_filter]

theorem mem_storageDeletes_remove_chunks (meta : MetaEnv) (keys : List String)
    (a k : String) :
    (a, k) ∈ (remove_chunks meta keys).storageDeletes ↔
      k ∈ keys ∧ ∃ bands, meta k = some bands ∧ a ∈ bands.map Prod.fst := by
  have hnd : ((List.foldl
      (fun m x => setA m x (((meta x).getD []).map Prod.fst)) []
      (keys.filter fun x => (meta x).isSome)).map Prod.fst).Nodup :=
    nodup_map_fst_foldl_setA _ _ [] List.nodup_nil
  constructor
  · intro hin
    simp only [remove_chunks, List.mem_flatten, List.mem_map] at hin
    obtain ⟨ld, ⟨p, hp, rfl⟩, hmem⟩ := hin
    obtain ⟨a0, ha0, heq⟩ := List.mem_map.mp hmem
    injection heq with he1 he2
    subst he1; subst he2
    have hl := mem_lookupA _ p.1 p.2 hnd hp
    rw [lookupA_foldl_setA] at hl
    by_cases hs : p.1 ∈ keys.filter fun x => (meta x).isSome
    · rw [if_pos hs] at hl
      injection hl with hl2
      obtain ⟨hk, hsome⟩ := List.mem_filter.mp hs
      obtain ⟨bands, hbands⟩ := Option.isSome_iff_exists.mp (by simpa using hsome)
      refine ⟨hk, bands, hbands, ?_⟩
      rw [← hl2] at ha0
      simpa [hbands] using ha0
    · rw [if_neg hs] at hl
      simp [lookupA] at hl
  · rintro ⟨hk, bands, hbands, ha⟩
    have hs : k ∈ keys.filter fun x => (meta x).isSome :=
      List.mem_filter.mpr ⟨hk, by simp [hbands]⟩
    have hl : lookupA (List.foldl
        (fun m x => setA m x (((meta x).getD []).map Prod.fst)) []
        (keys.filter fun x => (meta x).isSome)) k =
        some (((meta k).getD []).map Prod.fst) := by
      rw [lookupA_foldl_setA, if_pos hs]
    have hpmem := lookupA_mem _ _ _ hl
    simp only [remove_chunks, List.mem_flatten, List.mem_map]
    refine ⟨(((meta k).getD []).map Prod.fst).map (fun x => (x, k)),
      ⟨(k, ((meta k).getD []).map Prod.fst), hpmem, rfl⟩, ?_⟩
    exact List.mem_map.mpr ⟨a, by simpa [hbands] using ha, rfl⟩

/-- C7: the shared deletion algorithm drops every candidate whose
metadata lookup (made with errors ignored) returned nothing — such a key
appears in neither the storage-delete requests nor the metadata-delete
requests; a candidate with metadata is kept, its metadata entry is
deleted, and a storage delete is issued at exactly the node addresses its
bands name (the delete itself carries `error='ignore'`). -/
theorem C7_remove_chunks_algorithm (meta : MetaEnv) (keys : List String)
    (a k : String) :
    (meta k = none → k ∉ (remove_chunks meta keys).metaDeletes ∧
       ∀ x, (x, k) ∉ (remove_chunks meta keys).storageDeletes) ∧
    (k ∈ (remove_chunks meta keys).metaDeletes ↔ k ∈ keys ∧ (meta k).isSome) ∧
    ((a, k) ∈ (remove_chunks meta keys).storageDeletes ↔
       k ∈ keys ∧ ∃ bands, meta k = some bands ∧ a ∈ bands.map Prod.fst) := by
  refine ⟨?_, mem_metaDeletes_remove_chunks meta keys k,
    mem_storageDeletes_remove_chunks meta keys a k⟩
  intro hnone
  constructor
  · intro hmem
    have := (mem_metaDeletes_remove_chunks meta keys k).mp hmem
    rw [hnone] at this
    simp at this
  · intro x hmem
    have := (mem_storageDeletes_remove_chunks meta keys x k).mp hmem
    obtain ⟨_, bands, hbands, _⟩ := this
    rw [hnone] at hbands
    exact Option.noConfusion hbands

/-- Closed instance of `C7_remove_chunks_algorithm` on a concrete
metadata environment. -/
theorem C7_remove_chunks_algorithm_witness :
    ("missing" ∉ (remove_chunks c2Meta ["c1", "missing"]).metaDeletes ∧
      ∀ x, (x, "missing") ∉ (remove_chunks c2Meta ["c1", "missing"]).storageDeletes) ∧
    ("c1" ∈ (remove_chunks c2Meta ["c1", "missing"]).metaDeletes ∧
      ("addr0", "c1") ∈ (remove_chunks c2Meta ["c1", "missing"]).storageDeletes) := by
  have h1 := C7_remove_chunks_algorithm c2Meta ["c1", "missing"] "addr0" "missing"
  have h2 := C7_remove_chunks_algorithm c2Meta ["c1", "missing"] "addr0" "c1"
  refine ⟨h1.1 (by decide), ?_, ?_⟩
  · exact h2.2.1.mpr (by decide)
  · exact h2.2.2.mpr ⟨by decide, [("addr0", "numa-0")], by decide, by decide⟩

theorem mem_pre_destroy_keys (st : TrackerState)
    (hnd : (st.chunk_ref_counts.map Prod.fst).Nodup) (k : String) :
    k ∈ pre_destroy_keys st ↔ 0 < lookup0 st.chunk_ref_counts k := by
  constructor
  · intro hin
    obtain ⟨p, hp, rfl⟩ := List.mem_map.mp hin
    obtain ⟨hmem, hpos⟩ := List.mem_filter.mp hp
    have := mem_lookupA _ p.1 p.2 hnd hmem
    simp only [lookup0, this, Option.getD_some]
    simpa using hpos
  · intro hpos
    rcases hl : lookupA st.chunk_ref_counts k with _ | v
    · rw [lookup0, hl] at hpos; simp at hpos
    · have hv : 0 < v := by rw [lookup0, hl] at hpos; simpa using hpos
      have hmem := lookupA_mem _ _ _ hl
      exact List.mem_map.mpr ⟨(k, v), List.mem_filter.mpr ⟨hmem, by simpa using hv⟩, rfl⟩

theorem pre_destroy_keys_nodup (st : TrackerState)
    (hnd : (st.chunk_ref_counts.map Prod.fst).Nodup) :
    (pre_destroy_keys st).Nodup :=
  hnd.sublist ((List.filter_sublist _).map Prod.fst)

/-- C6: `__pre_destroy__` hands `_remove_chunks` exactly the chunk keys
whose recorded ref count is strictly positive, each once (keys at zero or
never seen are excluded), so each such chunk's metadata entry is deleted
at most once and its storage deletes are issued once per band address. -/
theorem C6_pre_destroy_positive_chunks (meta : MetaEnv) (st : TrackerState)
    (hnd : (st.chunk_ref_counts.map Prod.fst).Nodup) :
    (∀ k, k ∈ pre_destroy_keys st ↔ 0 < lookup0 st.chunk_ref_counts k) ∧
    (pre_destroy_keys st).Nodup ∧
    pre_destroy meta st = remove_chunks meta (pre_destroy_keys st) ∧
    (pre_destroy meta st).metaDeletes.Nodup ∧
    (∀ k, k ∈ (pre_destroy meta st).metaDeletes ↔
       0 < lookup0 st.chunk_ref_counts k ∧ (meta k).isSome) := by
  refine ⟨fun k => mem_pre_destroy_keys st hnd k, pre_destroy_keys_nodup st hnd, rfl,
    (pre_destroy_keys_nodup st hnd).filter _, ?_⟩
  intro k
  rw [show (pre_destroy meta st).metaDeletes =
    (remove_chunks meta (pre_destroy_keys st)).metaDeletes from rfl,
    mem_metaDeletes_remove_chunks, mem_pre_destroy_keys st hnd]

/-- Closed instance of `C6_pre_destroy_positive_chunks` on the state
after the first decref of the C2 scenario (counts `c1 = c2 = 1`). -/
theorem C6_pre_destroy_positive_chunks_witness :
    pre_destroy_keys c2Dec1.1 = ["c1", "c2"] ∧
    ("c1" ∈ (pre_destroy c2Meta c2Dec1.1).metaDeletes ↔
      0 < lookup0 c2Dec1.1.chunk_ref_counts "c1" ∧ (c2Meta "c1").isSome) ∧
    (pre_destroy c2Meta c2Dec1.1).metaDeletes.Nodup := by
  have h := C6_pre_destroy_positive_chunks c2Meta c2Dec1.1 (by decide)
  exact ⟨by decide, h.2.2.2.2 "c1", h.2.2.2.1⟩

/-- C8 counterexample: re-tracking a tileable key with a different chunk
list REPLACES the stored list; after `track('t',['c1'])` then
`track('t',['c2'])` the key maps to `['c2']`, not the original
`['c1']`. -/
theorem C8_track_overwrite_counterexample :
    lookupA (track (track initState "t" ["c1"]) "t" ["c2"]).tileable_key_to_chunk_keys "t"
      = some ["c2"] ∧
    lookupA (track (track initState "t" ["c1"]) "t" ["c2"]).tileable_key_to_chunk_keys "t"
      ≠ some ["c1"] := by
  decide

/-- C8 (amended): `track` is last-write-wins, not immutable-by-key: after
`track(t, cs)` the key `t` maps to `cs` whatever was stored before, and a
subsequent `incref_tileables([t])` cascades over `cs`. -/
theorem C8_track_last_write_wins (st : TrackerState) (t : String) (cs : List String) :
    lookupA (track st t cs).tileable_key_to_chunk_keys t = some cs ∧
    incref_tileables (track st t cs) [t] =
      (incref_chunks
        { track st t cs with
            tileable_ref_counts := addA (track st t cs).tileable_ref_counts t 1 } cs,
       .ok ()) := by
  have hl : lookupA (track st t cs).tileable_key_to_chunk_keys t = some cs := by
    simp [track, lookupA_setA_self]
  exact ⟨hl, by simp [incref_tileables, hl]⟩

/-! The session execution watcher (`Session._run_in_background`,
`mars/deploy/oscar/session.py` lines 111-132). -/

/-- A captured remote traceback. -/
structure RemoteTraceback where
  frames : List String
deriving DecidableEq, Repr

/-- A Python exception value: type name, message, attached traceback and
`__cause__` chain. -/
inductive PyException where
  | mk (etype : String) (msg : String) (traceback : Option RemoteTraceback)
      (cause : Option PyException)

def PyException.etype : PyException → String | .mk t _ _ _ => t

def PyException.msg : PyException → String | .mk _ m _ _ => m

def PyException.traceback : PyException → Option RemoteTraceback | .mk _ _ tb _ => tb

def PyException.cause : PyException → Option PyException | .mk _ _ _ c => c

/-- `exc.with_traceback(tb)`: the same exception object with its
traceback replaced; the cause chain is untouched. -/
def PyException.with_traceback : PyException → Option RemoteTraceback → PyException
  | .mk t m _ c, tb => .mk t m tb c

/-- `TaskResult` as consumed by the watcher: the terminal error (if any)
and the remote traceback. -/
structure TaskResult where
  error : Option PyException
  traceback : Option RemoteTraceback

/-- One `wait_task(task_id, timeout=0.5)` poll: either a timeout (in
which case `get_task_progress` supplies a fresh progress value) or the
terminal result. -/
inductive PollResp where
  | pending (progress : ℚ)
  | done (r : TaskResult)

/-- The watcher's polling loop: drain poll responses updating the shared
progress; on a terminal result set progress to 1.  `none` when the
response list is exhausted while the task still runs. -/
def pollUntilDone : List PollResp → ℚ → ℚ × Option TaskResult
  | [], p => (p, none)
  | .pending q :: rest, _ => pollUntilDone rest q
  | .done r :: _, _ => (1, some r)

/-- What `_run_in_background` does after its loop finishes. -/
inductive RunOutcome where
  | raised (e : PyException)
  | completed (tileable_to_fetch : List (Nat × Nat))

/-- `_run_in_background(tileables, task_id, progress)`: poll until a
terminal result; on `task_result.error` re-raise that error with the
remote traceback attached (`raise task_result.error.with_traceback(
task_result.traceback)`); otherwise assert the fetch tileables match the
submitted tileables 1:1 and record the mapping. -/
def run_in_background (polls : List PollResp) (tileables fetch_tileables : List Nat)
    (p0 : ℚ) : ℚ × Option RunOutcome :=
  match pollUntilDone polls p0 with
  | (p, none) => (p, none)
  | (p, some r) =>
    match r.error with
    | some e => (p, some (.raised (e.with_traceback r.traceback)))
    | none =>
      if tileables.length = fetch_tileables.length then
        (p, some (.completed (tileables.zip fetch_tileables)))
      else
        (p, some (.raised (.mk "AssertionError" "" none none)))

/-- The remote traceback of the C4 scenario. -/
def c4Traceback : RemoteTraceback := ⟨["remote frame"]⟩

/-- A terminal `TaskResult` carrying a remote `TypeError`. -/
def c4Result : TaskResult :=
  ⟨some (.mk "TypeError" "bad op" none none), some c4Traceback⟩

/-- C4 counterexample: the watcher re-raises the ORIGINAL remote
exception with the remote traceback attached (`err.with_traceback(tb)`),
not a wrapper around it: the exception surfaced to the awaiter is itself
the `TypeError` and its `__cause__` chain is empty, so no wrapped
execution error with the original as chained cause exists. -/
theorem C4_no_wrapper_counterexample :
    (run_in_background [.done c4Result] [] [] 0).2 =
      some (.raised (.mk "TypeError" "bad op" (some c4Traceback) none)) ∧
    (PyException.mk "TypeError" "bad op" (some c4Traceback) none).cause = none ∧
    (PyException.mk "TypeError" "bad op" (some c4Traceback) none).etype =
      "TypeError" := by
  refine ⟨rfl, rfl, rfl⟩

/-- C4 (amended): on a terminal `TaskResult` carrying an error the
watcher raises the ORIGINAL remote exception itself, re-raised with the
remote traceback attached: type and message are preserved, the traceback
becomes the remote one, the cause chain is whatever the remote exception
carried, and the error is never swallowed — a remote `TypeError`
surfaces as a `TypeError`. -/
theorem C4_reraise_original (polls : List PollResp) (ts fts : List Nat) (p0 : ℚ)
    (r : TaskResult) (e : PyException)
    (hp : (pollUntilDone polls p0).2 = some r) (he : r.error = some e) :
    (run_in_background polls ts fts p0).2 =
      some (.raised (e.with_traceback r.traceback)) ∧
    (e.with_traceback r.traceback).etype = e.etype ∧
    (e.with_traceback r.traceback).msg = e.msg ∧
    (e.with_traceback r.traceback).traceback = r.traceback ∧
    (e.with_traceback r.traceback).cause = e.cause := by
  have hrun : (run_in_background polls ts fts p0).2 =
      some (.raised (e.with_traceback r.traceback)) := by
    rw [run_in_background]
    rcases hpoll : pollUntilDone polls p0 with ⟨p, ro⟩
    rw [hpoll] at hp
    simp only at hp
    subst hp
    simp [he]
  refine ⟨hrun, ?_, ?_, ?_, ?_⟩ <;>
    cases e <;>
    rfl

/-- Closed instance of `C4_reraise_original` on the C4 scenario. -/
theorem C4_reraise_original_witness :
    (run_in_background [.done c4Result] [] [] 0).2 =
      some (.raised ((PyException.mk "TypeError" "bad op" none
        none).with_traceback c4Result.traceback)) ∧
    ((PyException.mk "TypeError" "bad op" none none).with_traceback
      c4Result.traceback).etype = "TypeError" := by
  have h := C4_reraise_original [.done c4Result] [] [] 0 c4Result
    (.mk "TypeError" "bad op" none none) rfl rfl
  exact ⟨h.1, h.2.1⟩

/-! Session fetch (`Session._get_to_fetch_tileable` / `Session.fetch`,
`mars/deploy/oscar/session.py` lines 160-213). -/

/-- One component of a recorded index (`op.indexes`): plain slices and
integers are fetchable, anything else (arrays, masks, ...) is not. -/
inductive IndexComp where
  | sliceComp (start stop step : Option Int)
  | integral (n : Int)
  | fancy (desc : String)
deriving DecidableEq, Repr

/-- `isinstance(index, (slice, Integral))`. -/
def IndexComp.isPlain : IndexComp → Bool
  | .fancy _ => false
  | _ => true

/-- Tileable operations: the three slice types (`TensorIndex`,
`DataFrameIlocGetItem`, `SeriesIlocGetItem`) carry `indexes`; anything
else does not. -/
inductive TOp where
  | tensorIndex (indexes : List IndexComp)
  | dataFrameIlocGetItem (indexes : List IndexComp)
  | seriesIlocGetItem (indexes : List IndexComp)
  | otherOp (name : String)
deriving DecidableEq, Repr

/-- `isinstance(tileable.op, slice_op_types)` returning the `indexes`. -/
def TOp.sliceIndexes : TOp → Option (List IndexComp)
  | .tensorIndex idxs => some idxs
  | .dataFrameIlocGetItem idxs => some idxs
  | .seriesIlocGetItem idxs => some idxs
  | .otherOp _ => none

/-- A client-side tileable: identity, operation, input tileables. -/
inductive Tileable where
  | mk (tid : Nat) (op : TOp) (inputs : List Tileable)

def Tileable.tid : Tileable → Nat | .mk i _ _ => i

def Tileable.op : Tileable → TOp | .mk _ o _ => o

def Tileable.inputs : Tileable → List Tileable | .mk _ _ l => l

/-- One chunk of a fetch tileable: storage key and position index. -/
structure ChunkRef where
  key : String
  index : List Nat
deriving DecidableEq, Repr

/-- The physical, readable plan recorded for an executed tileable. -/
structure FetchTileable where
  chunks : List ChunkRef
deriving DecidableEq, Repr

/-- Failures of the fetch path. -/
inductive FetchErr where
  | cannotFetchUnexecuted (tid : Nat)
  | onlySliceSupported
  | indexErr
  | assertionError
  | metaMissing (key : String)
deriving DecidableEq, Repr

/-- `_get_to_fetch_tileable`: walk up while the tileable has no recorded
fetch tileable; a slice-type op stores its `indexes`, moves to
`inputs[0]` and validates that every index component is a plain slice or
integer (else `ValueError('Only support fetch data slices')`); any other
unrecorded op raises `ValueError('Cannot fetch unexecuted tileable')`. -/
def get_to_fetch_tileable (m : Nat → Option FetchTileable) :
    Tileable → Option (List IndexComp) →
      Except FetchErr (FetchTileable × Option (List IndexComp))
  | .mk tid op inputs, indexes =>
    match m tid with
    | some ft => .ok (ft, indexes)
    | none =>
      match op.sliceIndexes with
      | some idxs =>
        match inputs with
        | [] => .error .indexErr
        | t' :: _ =>
          if idxs.all IndexComp.isPlain then
            get_to_fetch_tileable m t' (some idxs)
          else .error .onlySliceSupported
      | none => .error (.cannotFetchUnexecuted tid)

/-- Per-chunk retrieval in `Session.fetch`: resolve the owning band via
`get_chunk_meta(key, fields=['bands'])` (raising when missing), pick
`bands[0]`, read the chunk from that node's storage and pair it with the
chunk index.  The second component logs the storage reads
`(address, key)` actually made, in order. -/
def fetch_chunks {V : Type} (meta : MetaEnv) (storage : String → String → V) :
    List ChunkRef → Except FetchErr (List (List Nat × V)) × List (String × String)
  | [] => (.ok [], [])
  | c :: rest =>
    match meta c.key with
    | none => (.error (.metaMissing c.key), [])
    | some [] => (.error .indexErr, [])
    | some (band :: _) =>
      match fetch_chunks meta storage rest with
      | (.ok l, log) =>
        (.ok ((c.index, storage band.1 c.key) :: l), (band.1, c.key) :: log)
      | (.error e, log) => (.error e, (band.1, c.key) :: log)

/-- `Session.fetch`: per tileable resolve the fetch tileable, then
`assert indexes is None`, then fetch all chunks and merge them by chunk
index (`merge_chunks`).  Returns the merged values or the first error,
plus the log of storage reads made before returning. -/
def session_fetch {V : Type} (m : Nat → Option FetchTileable) (meta : MetaEnv)
    (storage : String → String → V) (merge : List (List Nat × V) → V) :
    List Tileable → Except FetchErr (List V) × List (String × String)
  | [] => (.ok [], [])
  | t :: ts =>
    match get_to_fetch_tileable m t none with
    | .error e => (.error e, [])
    | .ok (ft, indexes) =>
      match indexes with
      | some _ => (.error .assertionError, [])
      | none =>
        match fetch_chunks meta storage ft.chunks with
        | (.error e, log) => (.error e, log)
        | (.ok l, log) =>
          match session_fetch m meta storage merge ts with
          | (.ok vs, log') => (.ok (merge l :: vs), log ++ log')
          | (.error e, log') => (.error e, log ++ log')

/-- An executed tileable of the C5 scenario (recorded in the fetch
map). -/
def c5Exec : Tileable := .mk 0 (.otherOp "ones") []

/-- A plain integer-index slice of the executed tileable. -/
def c5Slice : Tileable := .mk 1 (.tensorIndex [.integral 0]) [c5Exec]

/-- The recorded fetch tileable of `c5Exec`: one chunk `ck`. -/
def c5Map : Nat → Option FetchTileable :=
  fun i => if i = 0 then some ⟨[⟨"ck", [0]⟩]⟩ else none

/-- Metadata of the C5 scenario: chunk `ck` lives on `addr0`. -/
def c5Meta : MetaEnv :=
  fun k => if k = "ck" then some [("addr0", "numa-0")] else none

/-- A storage returning 42 for every read. -/
def c5Storage : String → String → Nat := fun _ _ => 42

/-- A merge function for the scenario. -/
def c5Merge : List (List Nat × Nat) → Nat := fun l => (l.map Prod.snd).sum

/-- C5 counterexample: for a tileable that is a plain integer index of an
already-executed input, `_get_to_fetch_tileable` resolves through the
input chain and returns the recorded fetch tileable with the indexes,
but `Session.fetch` then fails on `assert indexes is None` instead of
returning the fetched value — and no storage read is made. -/
theorem C5_slice_fetch_asserts_counterexample :
    get_to_fetch_tileable c5Map c5Slice none =
      .ok (⟨[⟨"ck", [0]⟩]⟩, some [.integral 0]) ∧
    session_fetch c5Map c5Meta c5Storage c5Merge [c5Slice] =
      (.error .assertionError, []) ∧
    session_fetch c5Map c5Meta c5Storage c5Merge [c5Exec] =
      (.ok [42], [("addr0", "ck")]) := by
  refine ⟨rfl, rfl, rfl⟩

/-- C5 (amended): `Session.fetch` fails with the "cannot fetch
unexecuted" error, before any storage read, on a tileable with no
recorded fetch tileable and a non-slice op; fails with the "only support
fetch data slices" rejection when the op is a slice type with any
non-plain index component; and for a plain slice/integer index of an
executed input `_get_to_fetch_tileable` DOES resolve through the input
chain, but `fetch` then fails on `assert indexes is None` (slice fetch is
unimplemented) — only a tileable with a directly recorded fetch tileable
is fetched, its chunks read and merged. -/
theorem C5_fetch_resolution {V : Type} (m : Nat → Option FetchTileable)
    (meta : MetaEnv) (storage : String → String → V)
    (merge : List (List Nat × V) → V) (tid : Nat) (name : String)
    (inputs : List Tileable) (idxs : List IndexComp) (t0 : Tileable)
    (rest : List Tileable) (ft : FetchTileable) :
    (m tid = none →
      session_fetch m meta storage merge [.mk tid (.otherOp name) inputs] =
        (.error (.cannotFetchUnexecuted tid), [])) ∧
    (m tid = none → idxs.all IndexComp.isPlain = false →
      session_fetch m meta storage merge [.mk tid (.tensorIndex idxs) (t0 :: rest)] =
        (.error .onlySliceSupported, [])) ∧
    (m tid = none → idxs.all IndexComp.isPlain = true → m t0.tid = some ft →
      get_to_fetch_tileable m (.mk tid (.tensorIndex idxs) (t0 :: rest)) none =
        .ok (ft, some idxs) ∧
      session_fetch m meta storage merge [.mk tid (.tensorIndex idxs) (t0 :: rest)] =
        (.error .assertionError, [])) ∧
    (∀ l log, m tid = some ft →
      fetch_chunks meta storage ft.chunks = (.ok l, log) →
      session_fetch m meta storage merge [.mk tid (.otherOp name) inputs] =
        (.ok [merge l], log)) := by
  refine ⟨?_, ?_, ?_, ?_⟩
  · intro h
    simp [session_fetch, get_to_fetch_tileable, h, TOp.sliceIndexes]
  · intro h hplain
    simp [session_fetch, get_to_fetch_tileable, h, TOp.sliceIndexes, hplain]
  · intro h hplain hft
    have hres : get_to_fetch_tileable m
        (.mk tid (.tensorIndex idxs) (t0 :: rest)) none = .ok (ft, some idxs) := by
      rw [get_to_fetch_tileable, h]
      simp only [TOp.sliceIndexes, hplain, if_true]
      cases t0 with
      | mk tid0 op0 inputs0 =>
        rw [get_to_fetch_tileable]
        simp only [Tileable.tid] at hft
        rw [hft]
    refine ⟨hres, ?_⟩
    simp [session_fetch, hres]
  · intro l log h hchunks
    rw [session_fetch, get_to_fetch_tileable, h]
    simp [hchunks, session_fetch]

/-- Closed instance of `C5_fetch_resolution` on the C5 scenario. -/
theorem C5_fetch_resolution_witness :
    session_fetch c5Map c5Meta c5Storage c5Merge [.mk 7 (.otherOp "ones") []] =
      (.error (.cannotFetchUnexecuted 7), []) ∧
    session_fetch c5Map c5Meta c5Storage c5Merge
        [.mk 7 (.tensorIndex [.fancy "mask"]) [c5Exec]] =
      (.error .onlySliceSupported, []) ∧
    session_fetch c5Map c5Meta c5Storage c5Merge
        [.mk 7 (.tensorIndex [.integral 0]) [c5Exec]] =
      (.error .assertionError, []) ∧
    session_fetch c5Map c5Meta c5Storage c5Merge [c5Exec] =
      (.ok [c5Merge [([0], 42)]], [("addr0", "ck")]) := by
  have h1 := C5_fetch_resolution c5Map c5Meta c5Storage c5Merge 7 "ones" []
    [.fancy "mask"] c5Exec [] ⟨[⟨"ck", [0]⟩]⟩
  have h2 := C5_fetch_resolution c5Map c5Meta c5Storage c5Merge 7 "ones" []
    [.integral 0] c5Exec [] ⟨[⟨"ck", [0]⟩]⟩
  have h3 := C5_fetch_resolution c5Map c5Meta c5Storage c5Merge 0 "ones" []
    [.integral 0] c5Exec [] ⟨[⟨"ck", [0]⟩]⟩
  refine ⟨h1.1 rfl, h1.2.1 rfl rfl, (h2.2.2.1 rfl rfl rfl).2, ?_⟩
  exact h3.2.2.2 [([0], 42)] [("addr0", "ck")] rfl rfl

/-! `ExecutableTuple.execute` / `ExecutableTuple.fetch`
(`mars/core/entity/executable.py` lines 222-233). -/

/-- The part of an `ExecutableTuple` relevant to execute/fetch: its items
and the sessions it was executed in. -/
structure ExecTuple (α : Type) where
  items : List α
  executed_sessions : List Nat
deriving DecidableEq, Repr

/-- Outcome of the mixin execute/fetch paths. -/
inductive ExecOutcome (β : Type) where
  | value (v : β)
  | error (msg : String)
deriving DecidableEq, Repr

/-- `_get_session(executable, session)`: the explicit session, else the
last executed session, else the process default. -/
def get_session {α : Type} (t : ExecTuple α) (session : Option Nat)
    (default_session : Option Nat) : Option Nat :=
  match session with
  | some s => some s
  | none =>
    match t.executed_sessions.getLast? with
    | some s => some s
    | none => default_session

/-- The mixin `execute` path: resolves the session then dispatches to
the session-level execute (graph submission). -/
def mixin_execute {α : Type}
    (sessionExecute : Option Nat → ExecTuple α → ExecOutcome (ExecTuple α))
    (default_session : Option Nat) (t : ExecTuple α) (session : Option Nat) :
    ExecOutcome (ExecTuple α) :=
  sessionExecute (get_session t session default_session) t

/-- The mixin `fetch` path: resolves the session, raises the
"must be executed first" error when none resolves, then dispatches. -/
def mixin_fetch {α : Type}
    (sessionFetch : Nat → ExecTuple α → ExecOutcome (List α))
    (default_session : Option Nat) (t : ExecTuple α) (session : Option Nat) :
    ExecOutcome (List α) :=
  match get_session t session default_session with
  | none => .error "must be executed first"
  | some s => sessionFetch s t

/-- `ExecutableTuple.execute`: `if len(self) == 0: return self`, else the
mixin path. -/
def ExecutableTuple.execute {α : Type}
    (sessionExecute : Option Nat → ExecTuple α → ExecOutcome (ExecTuple α))
    (default_session : Option Nat) (t : ExecTuple α) (session : Option Nat) :
    ExecOutcome (ExecTuple α) :=
  if t.items.length = 0 then .value t
  else mixin_execute sessionExecute default_session t session

/-- `ExecutableTuple.fetch`: `if len(self) == 0: return tuple()`, else
the mixin path. -/
def ExecutableTuple.fetch {α : Type}
    (sessionFetch : Nat → ExecTuple α → ExecOutcome (List α))
    (default_session : Option Nat) (t : ExecTuple α) (session : Option Nat) :
    ExecOutcome (List α) :=
  if t.items.length = 0 then .value []
  else mixin_fetch sessionFetch default_session t session

/-- C10: on a zero-length `ExecutableTuple`, `execute` returns the tuple
itself and `fetch` returns the empty tuple, whatever the session-level
execute/fetch functions, the default session and the explicit session
argument are — so no session is resolved, no graph submitted and the
"must be executed first" error cannot be raised. -/
theorem C10_empty_tuple_shortcircuit {α : Type}
    (sessionExecute : Option Nat → ExecTuple α → ExecOutcome (ExecTuple α))
    (sessionFetch : Nat → ExecTuple α → ExecOutcome (List α))
    (default_session session : Option Nat) (ss : List Nat) :
    ExecutableTuple.execute sessionExecute default_session ⟨[], ss⟩ session =
      .value ⟨[], ss⟩ ∧
    ExecutableTuple.fetch sessionFetch default_session ⟨[], ss⟩ session =
      .value [] := by
  exact ⟨rfl, rfl⟩

/-! The HTTP storage tunnel (`mars/services/storage/api/web.py`):
`WebStorageAPI.get/put` on the client and `StorageWebAPIHandler` on the
server.  The value serialization (`serialize_serializable` /
`deserialize_serializable`), the storage level enum and `DataInfo` live
outside the excerpted core and are modelled from the spec as parameters
or spec-level definitions; the tunnel logic itself follows the source. -/

/-- Modelled from the spec: the storage tiers (`StorageLevel`), the enum
itself being outside the excerpted core; the spec names the tiers
`{memory|disk|...}`. -/
inductive StorageLevel where
  | gpu
  | memory
  | disk
  | remote
deriving DecidableEq, Repr

/-- `level.name` as Python's enum exposes it. -/
def StorageLevel.name : StorageLevel → String
  | .gpu => "GPU"
  | .memory => "MEMORY"
  | .disk => "DISK"
  | .remote => "REMOTE"

/-- `str.upper()` on ASCII names. -/
def strUpper (s : String) : String := ⟨s.data.map Char.toUpper⟩

/-- `str.lower()` on ASCII names. -/
def strLower (s : String) : String := ⟨s.data.map Char.toLower⟩

/-- `getattr(StorageLevel, name)`: server-side reconstitution of a level
from its upper-cased name; `none` is an `AttributeError`. -/
def StorageLevel.fromName (s : String) : Option StorageLevel :=
  if s = "GPU" then some .gpu
  else if s = "MEMORY" then some .memory
  else if s = "DISK" then some .disk
  else if s = "REMOTE" then some .remote
  else none

/-- Modelled from the spec: `DataInfo`, the result of a storage put —
level and size. -/
structure DataInfo where
  level : StorageLevel
  size : Nat
deriving DecidableEq, Repr

/-- Failures of the web handler: `KeyError` from
`_get_storage_api_by_object_id` when the key has no bands,
`AttributeError` from `getattr(StorageLevel, ...)`. -/
inductive WebErr where
  | keyError
  | attributeError
deriving DecidableEq, Repr

/-- The HTTP request a `WebStorageAPI.put` sends: the path names the data
key, the query carries `level={level.name.lower()}`, the body is the
serialized object. -/
structure PutRequest (B : Type) where
  data_key : String
  levelParam : Option String
  body : B

/-- `StorageWebAPIHandler.put_data`: parse the level query parameter
(defaulting to `MEMORY`, upper-cased, looked up on the enum), resolve the
owning node from the key's bands (`KeyError` when absent), deserialize
the body, call that node's `StorageAPI.put`, serialize the resulting
`DataInfo`. -/
def StorageWebAPIHandler.put_data {V B D : Type} (meta : MetaEnv)
    (oscarPut : String → String → V → StorageLevel → D)
    (deserV : B → V) (serD : D → B) (req : PutRequest B) : Except WebErr B :=
  match StorageLevel.fromName (strUpper (req.levelParam.getD "MEMORY")) with
  | none => .error .attributeError
  | some level =>
    match meta req.data_key with
    | none => .error .keyError
    | some [] => .error .keyError
    | some (band :: _) =>
      .ok (serD (oscarPut band.1 req.data_key (deserV req.body) level))

/-- `StorageWebAPIHandler.get_data` (HTTP GET): resolve the owning node
from the key's bands, call its `StorageAPI.get` with no conditions,
serialize the result. -/
def StorageWebAPIHandler.get_data {V B C : Type} (meta : MetaEnv)
    (oscarGet : String → String → Option C → V) (serV : V → B)
    (data_key : String) : Except WebErr B :=
  match meta data_key with
  | none => .error .keyError
  | some [] => .error .keyError
  | some (band :: _) => .ok (serV (oscarGet band.1 data_key none))

/-- `StorageWebAPIHandler.get_data_by_post` (HTTP POST): deserialize the
body, extract its `conditions`, resolve the owning node, call its
`StorageAPI.get` with those conditions, serialize the result. -/
def StorageWebAPIHandler.get_data_by_post {V B C : Type} (meta : MetaEnv)
    (oscarGet : String → String → Option C → V) (serV : V → B)
    (deserBody : B → Option C) (data_key : String) (body : B) : Except WebErr B :=
  match meta data_key with
  | none => .error .keyError
  | some [] => .error .keyError
  | some (band :: _) => .ok (serV (oscarGet band.1 data_key (deserBody body)))

/-- `WebStorageAPI.get` composed with the server handler: a plain GET
when `conditions is None`, else a POST with the serialized
`{'conditions': ...}` body; the reply body is deserialized. -/
def web_get {V B C : Type} (meta : MetaEnv)
    (oscarGet : String → String → Option C → V)
    (serV : V → B) (deserV : B → V)
    (serBody : Option C → B) (deserBody : B → Option C)
    (data_key : String) (conditions : Option C) : Except WebErr V :=
  match conditions with
  | none =>
    (StorageWebAPIHandler.get_data meta oscarGet serV data_key).map deserV
  | some c =>
    (StorageWebAPIHandler.get_data_by_post meta oscarGet serV deserBody
      data_key (serBody (some c))).map deserV

/-- `WebStorageAPI.put` composed with the server handler: serialize the
object, send it with `?level={level.name.lower()}`, deserialize the
`DataInfo` reply. -/
def web_put {V B D : Type} (meta : MetaEnv)
    (oscarPut : String → String → V → StorageLevel → D)
    (serV : V → B) (deserV : B → V) (serD : D → B) (deserD : B → D)
    (data_key : String) (obj : V) (level : StorageLevel) : Except WebErr D :=
  (StorageWebAPIHandler.put_data meta oscarPut deserV serD
    ⟨data_key, some (strLower level.name), serV obj⟩).map deserD

/-- C9: the HTTP storage tunnel is transparent.  For every key whose
metadata names an owning band, and for every serialization with a left
inverse (the codec's contract), `WebStorageAPI.get/put` composed with the
server-side `StorageWebAPIHandler` equals calling the owning node's
`StorageAPI.get/put` directly: values and conditions survive the
round trip, and the storage level sent as a lowercase query parameter is
reconstituted to the same `StorageLevel` by `getattr` after
`.upper()`. -/
theorem C9_web_storage_tunnel_equiv {V B C D : Type} (meta : MetaEnv)
    (oscarGet : String → String → Option C → V)
    (oscarPut : String → String → V → StorageLevel → D)
    (serV : V → B) (deserV : B → V) (serD : D → B) (deserD : B → D)
    (serBody : Option C → B) (deserBody : B → Option C)
    (hV : ∀ v, deserV (serV v) = v) (hD : ∀ d, deserD (serD d) = d)
    (hB : ∀ c, deserBody (serBody c) = c)
    (data_key : String) (obj : V) (level : StorageLevel) (conditions : Option C)
    (band : Band) (bands : List Band)
    (hmeta : meta data_key = some (band :: bands)) :
    web_get meta oscarGet serV deserV serBody deserBody data_key conditions =
      .ok (oscarGet band.1 data_key conditions) ∧
    web_put meta oscarPut serV deserV serD deserD data_key obj level =
      .ok (oscarPut band.1 data_key obj level) ∧
    StorageLevel.fromName (strUpper (strLower level.name)) = some level := by
  have hlevel : StorageLevel.fromName (strUpper (strLower level.name)) = some level := by
    cases level <;> decide
  refine ⟨?_, ?_, hlevel⟩
  · cases conditions with
    | none => simp [web_get, StorageWebAPIHandler.get_data, hmeta, hV, Except.map]
    | some c =>
      simp [web_get, StorageWebAPIHandler.get_data_by_post, hmeta, hB, hV, Except.map]
  · simp [web_put, StorageWebAPIHandler.put_data, hlevel, hmeta, hV, hD, Except.map]

/-- Metadata of the C9 witness: key `dk` owned by `addr0`. -/
def c9Meta : MetaEnv :=
  fun k => if k = "dk" then some [("addr0", "numa-0")] else none

/-- A concrete wire format carrying any of the three payload kinds. -/
abbrev C9Wire := Option Nat × Option DataInfo × Option (Option (List Nat))

/-- A concrete per-node storage get. -/
def c9OscarGet : String → String → Option (List Nat) → Nat :=
  fun _ _ c => (c.getD []).length

/-- A concrete per-node storage put. -/
def c9OscarPut : String → String → Nat → StorageLevel → DataInfo :=
  fun _ _ v l => ⟨l, v⟩

def c9SerV : Nat → C9Wire := fun v => (some v, none, none)

def c9DeserV : C9Wire → Nat := fun b => b.1.getD 0

def c9SerD : DataInfo → C9Wire := fun d => (none, some d, none)

def c9DeserD : C9Wire → DataInfo := fun b => b.2.1.getD ⟨.memory, 0⟩

def c9SerBody : Option (List Nat) → C9Wire := fun c => (none, none, some c)

def c9DeserBody : C9Wire → Option (List Nat) := fun b => b.2.2.getD none

/-- Closed instance of `C9_web_storage_tunnel_equiv` on a concrete codec,
storage and metadata environment. -/
theorem C9_web_storage_tunnel_equiv_witness :
    web_get c9Meta c9OscarGet c9SerV c9DeserV c9SerBody c9DeserBody
        "dk" (some [1, 2]) =
      .ok (c9OscarGet "addr0" "dk" (some [1, 2])) ∧
    web_put c9Meta c9OscarPut c9SerV c9DeserV c9SerD c9DeserD "dk" 5 .disk =
      .ok (c9OscarPut "addr0" "dk" 5 .disk) := by
  have h := C9_web_storage_tunnel_equiv c9Meta c9OscarGet c9OscarPut c9SerV
    c9DeserV c9SerD c9DeserD c9SerBody c9DeserBody (fun v => rfl) (fun d => rfl)
    (fun c => rfl) "dk" 5 .disk (some [1, 2]) ("addr0", "numa-0") [] (by decide)
  exact ⟨h.1, h.2.1⟩

end Mars
